import Mathlib

/-!
# Verification of the cron-backend transaction core

A shallow embedding of the transaction submission / confirmation / ledger
flow of the `cron-backend` repository, together with proofs about it.

Embedded components (source locations refer to the repository):
* the Supabase-backed store (`users` and `transactions` tables) as lists of
  rows, with `.single()` modelled as "exactly one matching row";
* `TransactionService.createTransaction` and
  `TransactionService.resolveReceiverIdentifier`
  (`src/routes/transaction/transaction.service.ts`);
* `UsersService.createUser` and `UsersService.transferSpl`
  (`src/routes/user/user.service.ts`);
* `SolanaService.decodeTransaction` and `SolanaService.signAndSendTransaction`
  (`src/solana/solana.service.ts`), over a model of the
  `@solana/web3.js` legacy/versioned transaction types and of the
  Node `Buffer` / `bs58` text decoders.
-/

namespace CronBackend

/-! ## Store model

The Supabase store, reduced to the two tables the transaction core touches.
Rows keep exactly the columns the embedded functions read or write.
PostgREST's `.single()` yields a data row when the filtered selection has
exactly one row, and an error with code `PGRST116` otherwise (zero rows or
more than one row); infrastructure errors are outside the model. -/

/-- One row of the `users` table (the columns the transaction core uses). -/
structure UserRow where
  user_id : String
  phone_number : String
  cron_id : Option String
  primary_address : Option String
  deriving Repr, DecidableEq

/-- One token movement of a ledger entry (`tx_token` in the schema). -/
structure TxToken where
  amount : String
  token_address : String
  deriving Repr, DecidableEq

/-- Ledger-entry status (`tx_status` enum in the schema). -/
inductive TxStatus where
  | pending
  | completed
  | failed
  deriving Repr, DecidableEq

/-- One row of the `transactions` table. -/
structure TxRow where
  transaction_hash : String
  sender_uid : String
  receiver_uid : String
  amount : Int
  token : List TxToken
  chain_id : Int
  status : TxStatus
  deriving Repr, DecidableEq

/-- The store state: the two tables the transaction core touches. -/
structure Store where
  users : List UserRow
  transactions : List TxRow
  deriving Repr, DecidableEq

/-- `.single()` on a filtered selection: a data row exactly when the
selection has exactly one row, otherwise a `PGRST116` error (`none`). -/
def single? {α : Type} : List α → Option α
  | [a] => some a
  | _ => none

/-- The selection `from('users').select(..).eq('user_id', uid)`. -/
def usersById (s : Store) (uid : String) : List UserRow :=
  s.users.filter (fun u => u.user_id == uid)

/-- The selection `from('users').select(..).eq('phone_number', p)`. -/
def usersByPhone (s : Store) (p : String) : List UserRow :=
  s.users.filter (fun u => u.phone_number == p)

/-- The selection `from('users').select(..).eq('cron_id', c)`. -/
def usersByCronId (s : Store) (c : String) : List UserRow :=
  s.users.filter (fun u => u.cron_id == some c)

/-- The selection `from('transactions').select(..).eq('transaction_hash', h)`. -/
def txByHash (s : Store) (h : String) : List TxRow :=
  s.transactions.filter (fun t => t.transaction_hash == h)

/-! ## Ledger Writer: `TransactionService.createTransaction`

`src/routes/transaction/transaction.service.ts`: validate that sender and
receiver exist, check that the hash is not already present, then insert the
row with status defaulting to `pending`. Each check uses `.single()`; a
`PGRST116` error on the hash check (no row) lets the insert proceed. -/

/-- Argument record of `createTransaction` (its `transactionData` object). -/
structure CreateTxData where
  transaction_hash : String
  sender_uid : String
  receiver_uid : String
  amount : Int
  token : List TxToken
  chain_id : Int
  status : Option TxStatus
  deriving Repr, DecidableEq

/-- Result value of `createTransaction`. -/
structure CreateTxResult where
  success : Bool
  message : String
  transaction : Option TxRow
  deriving Repr, DecidableEq

/-- `TransactionService.createTransaction`, as a state-passing function:
sender-exists check, receiver-exists check, duplicate-hash check (in that
order), then insert with `status: transactionData.status || 'pending'`.
Returns the structured result and the store after the call. -/
def createTransaction (s : Store) (d : CreateTxData) : CreateTxResult × Store :=
  match single? (usersById s d.sender_uid) with
  | none => ({ success := false, message := "Sender user not found", transaction := none }, s)
  | some _ =>
    match single? (usersById s d.receiver_uid) with
    | none => ({ success := false, message := "Receiver user not found", transaction := none }, s)
    | some _ =>
      match single? (txByHash s d.transaction_hash) with
      | some _ =>
        ({ success := false, message := "Transaction with this hash already exists",
           transaction := none }, s)
      | none =>
        let newTx : TxRow :=
          { transaction_hash := d.transaction_hash
            sender_uid := d.sender_uid
            receiver_uid := d.receiver_uid
            amount := d.amount
            token := d.token
            chain_id := d.chain_id
            status := d.status.getD TxStatus.pending }
        ({ success := true, message := "Transaction created successfully",
           transaction := some newTx },
         { s with transactions := s.transactions ++ [newTx] })

/-! ## Identifier Resolver: `TransactionService.resolveReceiverIdentifier`

`src/routes/transaction/transaction.service.ts`: UUID-shape test first
(lookup by `user_id`), else phone-shape test (`+`-initial or all digits,
lookup by `phone_number`), else lookup by `cron_id`. Each branch returns
`null` directly when its `.single()` lookup finds no row. -/

/-- Hexadecimal digit under the `/i` flag of the UUID regex. -/
def isHexDigitCI (c : Char) : Bool :=
  (('0' ≤ c && c ≤ '9') || ('a' ≤ c && c ≤ 'f') || ('A' ≤ c && c ≤ 'F'))

/-- The test
`/^[0-9a-f]{8}-[0-9a-f]{4}-[1-5][0-9a-f]{3}-[89ab][0-9a-f]{3}-[0-9a-f]{12}$/i`:
36 characters, dashes at positions 8, 13, 18, 23, a version digit `1`–`5`
at position 14, a variant character `[89ab]` (case-insensitive) at
position 19, and hexadecimal digits elsewhere. -/
def uuidShape (s : String) : Bool :=
  let cs := s.data
  cs.length == 36 &&
    (List.range 36).all (fun i =>
      let c := cs.getD i ' '
      if i == 8 || i == 13 || i == 18 || i == 23 then c == '-'
      else if i == 14 then '1' ≤ c && c ≤ '5'
      else if i == 19 then
        c == '8' || c == '9' || c == 'a' || c == 'b' || c == 'A' || c == 'B'
      else isHexDigitCI c)

/-- The test `identifier.startsWith('+') || /^\d+$/.test(identifier)`. -/
def phoneShape (s : String) : Bool :=
  s.startsWith "+" || (!s.data.isEmpty && s.data.all (fun c => '0' ≤ c && c ≤ '9'))

/-- `TransactionService.resolveReceiverIdentifier`: read-only resolution of a
free-form identifier to a `user_id`, strategies tried in the fixed order
UUID shape / phone shape / cron id, the selected branch being terminal. -/
def resolveReceiverIdentifier (s : Store) (identifier : String) : Option String :=
  if uuidShape identifier then
    match single? (usersById s identifier) with
    | none => none
    | some u => some u.user_id
  else if phoneShape identifier then
    match single? (usersByPhone s identifier) with
    | none => none
    | some u => some u.user_id
  else
    match single? (usersByCronId s identifier) with
    | none => none
    | some u => some u.user_id

/-! ## `UsersService.createUser`

`src/routes/user/user.service.ts`: look up the phone number with
`.single()`; when a row comes back, return it with `isNewUser: false` and
no insert; otherwise insert a fresh row (new `crypto.randomUUID()` id,
`cron_id: null`, `primary_address: null`) and return it with
`isNewUser: true`. The generated UUID is passed in as `newUuid`. -/

/-- Result value of `createUser`. -/
structure CreateUserResult where
  success : Bool
  message : String
  user : Option UserRow
  isNewUser : Bool
  deriving Repr, DecidableEq

/-- `UsersService.createUser`, as a state-passing function. -/
def createUser (s : Store) (newUuid : String) (phoneNumber : String) :
    CreateUserResult × Store :=
  match single? (usersByPhone s phoneNumber) with
  | some existingUser =>
    ({ success := true, message := "User found with existing phone number",
       user := some existingUser, isNewUser := false }, s)
  | none =>
    let newUser : UserRow :=
      { user_id := newUuid, phone_number := phoneNumber,
        cron_id := none, primary_address := none }
    ({ success := true, message := "New user created successfully",
       user := some newUser, isNewUser := true },
     { s with users := s.users ++ [newUser] })

/-! ## Helper lemmas about the store model -/

theorem single?_eq_some {α : Type} {l : List α} {a : α} :
    single? l = some a ↔ l = [a] := by
  match l with
  | [] => simp [single?]
  | [x] => simp [single?]
  | x :: y :: xs => simp [single?]

theorem single?_eq_none_of_nil {α : Type} {l : List α} (h : l = []) :
    single? l = none := by
  subst h; rfl

/-! ## Claim theorems: Ledger Writer and Identifier Resolver -/

/-- Fixture store: one transaction with hash `"h0"`, no users. -/
def cexStore : Store :=
  { users := [],
    transactions :=
      [{ transaction_hash := "h0", sender_uid := "s0", receiver_uid := "r0",
         amount := 1, token := [], chain_id := 101, status := TxStatus.completed }] }

/-- Fixture call reusing the pre-existing hash `"h0"` with a sender id that
has no `users` row. -/
def cexData : CreateTxData :=
  { transaction_hash := "h0", sender_uid := "s0", receiver_uid := "r0",
    amount := 1, token := [], chain_id := 101, status := some TxStatus.completed }

/-- C5 (counterexample): a `createTransaction` call whose hash already has a
ledger row does not necessarily return the duplicate-hash failure — when the
sender id has no `users` row, the sender check fires first and the call
returns `"Sender user not found"` instead. -/
theorem createTransaction_duplicate_hash_counterexample :
    (∃ t ∈ cexStore.transactions, t.transaction_hash = cexData.transaction_hash) ∧
    (createTransaction cexStore cexData).1.message ≠
      "Transaction with this hash already exists" ∧
    (createTransaction cexStore cexData).1.message = "Sender user not found" := by
  refine ⟨⟨_, List.mem_cons_self _ _, rfl⟩, ?_, ?_⟩ <;> decide

/-- C5 (amended): provided the sender and receiver checks pass (a unique
`users` row exists for each), a `createTransaction` call whose hash already
has exactly one ledger row returns the structured failure
`{success: false, message: "Transaction with this hash already exists"}`,
creates no second row and leaves the store unchanged; and, for every store
and every call, `createTransaction` preserves "at most one ledger row per
hash". -/
theorem createTransaction_duplicate_hash_amended (s : Store) (d : CreateTxData)
    (hs : ∃ u, usersById s d.sender_uid = [u])
    (hr : ∃ u, usersById s d.receiver_uid = [u])
    (hdup : ∃ t, txByHash s d.transaction_hash = [t]) :
    (createTransaction s d =
      ({ success := false, message := "Transaction with this hash already exists",
         transaction := none }, s)) ∧
    (∀ s' : Store, ∀ d' : CreateTxData, ∀ hsh : String,
      (s'.transactions.countP (fun t => t.transaction_hash == hsh)) ≤ 1 →
      ((createTransaction s' d').2.transactions.countP
        (fun t => t.transaction_hash == hsh)) ≤ 1) := by
  constructor
  · obtain ⟨us, hus⟩ := hs
    obtain ⟨ur, hur⟩ := hr
    obtain ⟨t, ht⟩ := hdup
    simp [createTransaction, hus, hur, ht, single?]
  · intro s' d' hsh hinv
    by_cases hcase :
        (createTransaction s' d').2.transactions = s'.transactions
    · rw [hcase]; exact hinv
    · -- the only state-changing branch is the insert branch, which requires
      -- the duplicate-hash check to have found no row
      unfold createTransaction at *
      cases hsender : single? (usersById s' d'.sender_uid) with
      | none => simp [hsender] at hcase
      | some u1 =>
        cases hrecv : single? (usersById s' d'.receiver_uid) with
        | none => simp [hsender, hrecv] at hcase
        | some u2 =>
          cases hhash : single? (txByHash s' d'.transaction_hash) with
          | some t0 => simp [hsender, hrecv, hhash] at hcase
          | none =>
            simp only [hsender, hrecv, hhash]
            rw [List.countP_append]
            by_cases heq : d'.transaction_hash = hsh
            · -- inserting a row with hash `hsh`: the pre-state has none,
              -- because the duplicate-hash check returned no single row and
              -- the invariant bounds the count by one
              have hnone : s'.transactions.countP
                  (fun t => t.transaction_hash == hsh) = 0 := by
                rcases Nat.lt_or_ge
                    (s'.transactions.countP (fun t => t.transaction_hash == hsh)) 1 with hlt | hge
                · omega
                · exfalso
                  have hone : s'.transactions.countP
                      (fun t => t.transaction_hash == hsh) = 1 := le_antisymm hinv hge
                  have hlen : (txByHash s' d'.transaction_hash).length = 1 := by
                    rw [txByHash, heq, ← hone, List.countP_eq_length_filter]
                  match hfl : txByHash s' d'.transaction_hash, hlen with
                  | [t], _ => rw [hfl] at hhash; simp [single?] at hhash
              rw [hnone]
              simp [heq]
            · -- inserting a row with a different hash leaves the count as is
              have hbeq : (d'.transaction_hash == hsh) = false :=
                beq_eq_false_iff_ne.mpr heq
              simpa [List.countP_cons, hbeq] using hinv

/-- Fixture store for the duplicate-hash witness: sender and receiver rows
exist and the hash `"h0"` already has a ledger row. -/
def dupStore : Store :=
  { users :=
      [{ user_id := "s0", phone_number := "+1111", cron_id := none, primary_address := none },
       { user_id := "r0", phone_number := "+2222", cron_id := none, primary_address := none }],
    transactions :=
      [{ transaction_hash := "h0", sender_uid := "s0", receiver_uid := "r0",
         amount := 1, token := [], chain_id := 101, status := TxStatus.completed }] }

theorem createTransaction_duplicate_hash_amended_witness :
    createTransaction dupStore cexData =
      ({ success := false, message := "Transaction with this hash already exists",
         transaction := none }, dupStore) :=
  (createTransaction_duplicate_hash_amended dupStore cexData
    ⟨_, rfl⟩ ⟨_, rfl⟩ ⟨_, rfl⟩).1

/-- C6: a `createTransaction` call whose sender id has no `users` row
returns the structured value `{success: false, message: "Sender user not
found"}` (a returned value, not a thrown exception) and performs no insert:
the store is returned unchanged. -/
theorem createTransaction_sender_not_found (s : Store) (d : CreateTxData)
    (h : ∀ u ∈ s.users, u.user_id ≠ d.sender_uid) :
    createTransaction s d =
      ({ success := false, message := "Sender user not found", transaction := none }, s) := by
  have hfil : usersById s d.sender_uid = [] := by
    rw [usersById, List.filter_eq_nil_iff]
    intro u hu
    simpa using h u hu
  rw [createTransaction, hfil]
  rfl

theorem createTransaction_sender_not_found_witness :
    createTransaction cexStore cexData =
      ({ success := false, message := "Sender user not found", transaction := none },
       cexStore) :=
  createTransaction_sender_not_found cexStore cexData (by decide)

/-- C7: `resolveReceiverIdentifier` applies its strategies in the fixed
order UUID shape, phone shape, handle, first match winning: a UUID-shaped
string is resolved solely by the `user_id` lookup, otherwise a `+`-initial
or all-digits string solely by the `phone_number` lookup, and any other
string solely by the `cron_id` lookup — so a not-found in the selected
branch yields `none` with no fallthrough to a later branch; and the
resolver performs no write (it returns no store). -/
theorem resolveReceiverIdentifier_ordered (s : Store) (str : String) :
    (uuidShape str = true →
      resolveReceiverIdentifier s str =
        Option.map (fun u => u.user_id) (single? (usersById s str))) ∧
    (uuidShape str = false → phoneShape str = true →
      resolveReceiverIdentifier s str =
        Option.map (fun u => u.user_id) (single? (usersByPhone s str))) ∧
    (uuidShape str = false → phoneShape str = false →
      resolveReceiverIdentifier s str =
        Option.map (fun u => u.user_id) (single? (usersByCronId s str))) := by
  refine ⟨?_, ?_, ?_⟩
  · intro hu
    rw [resolveReceiverIdentifier, if_pos hu]
    cases single? (usersById s str) <;> rfl
  · intro hu hp
    rw [resolveReceiverIdentifier, if_neg (by simp [hu]), if_pos hp]
    cases single? (usersByPhone s str) <;> rfl
  · intro hu hp
    rw [resolveReceiverIdentifier, if_neg (by simp [hu]), if_neg (by simp [hp])]
    cases single? (usersByCronId s str) <;> rfl

/-- Fixture store for the resolver witness: a user whose `cron_id` is
UUID-shaped but whose `user_id` is different, so the UUID branch is chosen
for that string, finds nothing, and no fallthrough to the `cron_id` lookup
happens. -/
def resolverStore : Store :=
  { users :=
      [{ user_id := "u1", phone_number := "+1555",
         cron_id := some "123e4567-e89b-42d3-a456-426614174000",
         primary_address := none }],
    transactions := [] }

theorem resolveReceiverIdentifier_ordered_witness :
    resolveReceiverIdentifier resolverStore "123e4567-e89b-42d3-a456-426614174000" =
      Option.map (fun u => u.user_id)
        (single? (usersById resolverStore "123e4567-e89b-42d3-a456-426614174000")) :=
  (resolveReceiverIdentifier_ordered resolverStore
    "123e4567-e89b-42d3-a456-426614174000").1 (by decide)

/-- C10: `createUser` is idempotent per phone number. When exactly one
`users` row has the phone number, `createUser` performs no insert and
returns `success: true` with that row and `isNewUser: false`; and when the
store has at most one row with the number, two consecutive `createUser`
calls with it return identical users, the second call leaves the store of
the first unchanged, and at most one row with that number exists
afterwards. -/
theorem createUser_idempotent_per_phone (s : Store) (p id1 id2 : String)
    (hinv : (usersByPhone s p).length ≤ 1) :
    (∀ u0, usersByPhone s p = [u0] →
      createUser s id1 p =
        ({ success := true, message := "User found with existing phone number",
           user := some u0, isNewUser := false }, s)) ∧
    ((createUser (createUser s id1 p).2 id2 p).1.user = (createUser s id1 p).1.user ∧
     (createUser (createUser s id1 p).2 id2 p).2 = (createUser s id1 p).2 ∧
     (usersByPhone (createUser (createUser s id1 p).2 id2 p).2 p).length ≤ 1) := by
  constructor
  · intro u0 hu0
    rw [createUser, hu0]
    rfl
  · match hfil : usersByPhone s p, hinv with
    | [], _ =>
      have h1 : createUser s id1 p =
          ({ success := true, message := "New user created successfully",
             user := some { user_id := id1, phone_number := p,
                            cron_id := none, primary_address := none },
             isNewUser := true },
           { s with users := s.users ++
              [{ user_id := id1, phone_number := p,
                 cron_id := none, primary_address := none }] }) := by
        rw [createUser, hfil]
        rfl
      have hfil2 : usersByPhone (createUser s id1 p).2 p =
          [{ user_id := id1, phone_number := p,
             cron_id := none, primary_address := none }] := by
        rw [h1, usersByPhone]
        show List.filter _ (s.users ++ [_]) = _
        rw [List.filter_append]
        rw [usersByPhone] at hfil
        rw [hfil]
        simp
      have h2 : createUser (createUser s id1 p).2 id2 p =
          ({ success := true, message := "User found with existing phone number",
             user := some { user_id := id1, phone_number := p,
                            cron_id := none, primary_address := none },
             isNewUser := false }, (createUser s id1 p).2) := by
        rw [createUser, hfil2]
        rfl
      rw [h2, h1]
      refine ⟨rfl, rfl, ?_⟩
      have : (createUser s id1 p).2 = { s with users := s.users ++
          [{ user_id := id1, phone_number := p,
             cron_id := none, primary_address := none }] } := by rw [h1]
      rw [← this, hfil2]
      simp
    | [u0], _ =>
      have h1 : createUser s id1 p =
          ({ success := true, message := "User found with existing phone number",
             user := some u0, isNewUser := false }, s) := by
        rw [createUser, hfil]
        rfl
      have h2 : createUser (createUser s id1 p).2 id2 p =
          ({ success := true, message := "User found with existing phone number",
             user := some u0, isNewUser := false }, s) := by
        rw [h1]
        show createUser s id2 p = _
        rw [createUser, hfil]
        rfl
      rw [h2, h1]
      refine ⟨rfl, rfl, ?_⟩
      show (usersByPhone s p).length ≤ 1
      rw [hfil]
      simp

theorem createUser_idempotent_per_phone_witness :
    createUser resolverStore "u2" "+1555" =
      ({ success := true, message := "User found with existing phone number",
         user := some { user_id := "u1", phone_number := "+1555",
                        cron_id := some "123e4567-e89b-42d3-a456-426614174000",
                        primary_address := none },
         isNewUser := false }, resolverStore) :=
  (createUser_idempotent_per_phone resolverStore "+1555" "u2" "u3"
    (by decide)).1 _ (by decide)

/-! ## Confirmation Poller: the loop in `UsersService.transferSpl`

`src/routes/user/user.service.ts` lines 432–440:

    let txnStatus = await this.solanaService.getTxnStatus(signature);
    while (txnStatus.value && txnStatus.value.confirmationStatus !== 'finalized') {
      await new Promise((resolve) => setTimeout(resolve, 500));
      txnStatus = await this.solanaService.getTxnStatus(signature);
    }

The network is modelled as a function `statuses : Nat → Option SignatureStatus`
giving the `.value` of the n-th `getTxnStatus` call; the loop is run with
explicit fuel (number of allowed retries), `none` meaning the run did not
exit within the fuel. -/

/-- `TransactionConfirmationStatus` of `@solana/web3.js`. -/
inductive ConfirmationStatus where
  | processed
  | confirmed
  | finalized
  deriving Repr, DecidableEq

/-- The fields of a `SignatureStatus` the flow reads: `confirmationStatus`
(an optional field) and whether `err` is non-null. -/
structure SignatureStatus where
  confirmationStatus : Option ConfirmationStatus
  err : Bool
  deriving Repr, DecidableEq

/-- The `while` condition: continue exactly when the fetched `.value` is
non-null and its `confirmationStatus` differs from `'finalized'`. -/
def pollContinues (v : Option SignatureStatus) : Bool :=
  match v with
  | none => false
  | some st => !(st.confirmationStatus == some ConfirmationStatus.finalized)

/-- The confirmation loop: `statuses n` is the n-th fetched `.value`
(fetch 0 happens before the loop). Returns `some last` when the loop exits
with last-fetched value `last` within `fuel` retries, `none` otherwise. -/
def pollLoop (statuses : Nat → Option SignatureStatus) :
    Nat → Nat → Option (Option SignatureStatus)
  | 0, n => if pollContinues (statuses n) then none else some (statuses n)
  | fuel + 1, n =>
    if pollContinues (statuses n) then pollLoop statuses fuel (n + 1)
    else some (statuses n)

theorem pollContinues_eq_false {v : Option SignatureStatus} :
    pollContinues v = false ↔
      v = none ∨ ∃ st, v = some st ∧
        st.confirmationStatus = some ConfirmationStatus.finalized := by
  cases v with
  | none => simp [pollContinues]
  | some st => simp [pollContinues]

theorem pollContinues_eq_true {v : Option SignatureStatus} :
    pollContinues v = true ↔
      ∃ st, v = some st ∧
        st.confirmationStatus ≠ some ConfirmationStatus.finalized := by
  cases v with
  | none => simp [pollContinues]
  | some st => simp [pollContinues]

/-- C2 (counterexample): over the all-null status stream (a signature the
network has not yet seen), the poller exits immediately — consuming zero
retries — and its last-fetched status is null, so the loop does terminate
with a null last-fetched status. -/
theorem pollLoop_null_terminates_counterexample :
    pollLoop (fun _ => none) 0 0 = some none := rfl

/-- C2 (amended): whenever the poller exits, it exits at the first fetch
whose status is null or finalized: the last-fetched status is either null
(which terminates the loop immediately, rather than causing a retry) or a
finalized status, and every earlier fetched status was non-null and
non-finalized, each causing one fixed-interval wait-and-retry. -/
theorem pollLoop_exit_characterization (statuses : Nat → Option SignatureStatus)
    (fuel n : Nat) (last : Option SignatureStatus)
    (h : pollLoop statuses fuel n = some last) :
    ∃ k, last = statuses (n + k) ∧
      (statuses (n + k) = none ∨
        ∃ st, statuses (n + k) = some st ∧
          st.confirmationStatus = some ConfirmationStatus.finalized) ∧
      (∀ j, j < k → ∃ st, statuses (n + j) = some st ∧
        st.confirmationStatus ≠ some ConfirmationStatus.finalized) := by
  induction fuel generalizing n with
  | zero =>
    rw [pollLoop] at h
    by_cases hc : pollContinues (statuses n) = true
    · rw [if_pos hc] at h
      exact absurd h (by simp)
    · rw [if_neg hc] at h
      refine ⟨0, by simpa using h.symm, ?_, by omega⟩
      simpa using pollContinues_eq_false.mp (by simpa using hc)
  | succ fuel ih =>
    rw [pollLoop] at h
    by_cases hc : pollContinues (statuses n) = true
    · rw [if_pos hc] at h
      obtain ⟨k, hk1, hk2, hk3⟩ := ih (n + 1) h
      refine ⟨k + 1, by simpa [Nat.add_assoc, Nat.add_comm 1 k] using hk1, ?_, ?_⟩
      · simpa [Nat.add_assoc, Nat.add_comm 1 k] using hk2
      · intro j hj
        cases j with
        | zero => simpa using pollContinues_eq_true.mp hc
        | succ j' =>
          have := hk3 j' (by omega)
          simpa [Nat.add_assoc, Nat.add_comm 1 j'] using this
    · rw [if_neg hc] at h
      refine ⟨0, by simpa using h.symm, ?_, by omega⟩
      simpa using pollContinues_eq_false.mp (by simpa using hc)

/-- A status stream for the poller witness: one non-finalized status, then
finalized statuses without an on-chain error. -/
def finStatuses : Nat → Option SignatureStatus := fun i =>
  if i == 0 then some { confirmationStatus := some ConfirmationStatus.confirmed, err := false }
  else some { confirmationStatus := some ConfirmationStatus.finalized, err := false }

theorem pollLoop_exit_characterization_witness :
    ∃ k, (some { confirmationStatus := some ConfirmationStatus.finalized,
                 err := false } : Option SignatureStatus) = finStatuses (0 + k) ∧
      (finStatuses (0 + k) = none ∨
        ∃ st, finStatuses (0 + k) = some st ∧
          st.confirmationStatus = some ConfirmationStatus.finalized) ∧
      (∀ j, j < k → ∃ st, finStatuses (0 + j) = some st ∧
        st.confirmationStatus ≠ some ConfirmationStatus.finalized) :=
  pollLoop_exit_characterization finStatuses 1 0
    (some { confirmationStatus := some ConfirmationStatus.finalized, err := false })
    rfl

/-! ## Transfer Orchestrator: `UsersService.transferSpl`

`src/routes/user/user.service.ts` lines 418–464. The awaited
`signAndSendTransaction` call is abstracted by its outcome `submitOutcome`
(a signature, or a thrown error which the orchestrator propagates); the
confirmation loop runs over `statuses` with explicit `fuel`; the ledger
write is the embedded `createTransaction`. The result of
`createTransaction` is not inspected by the source (`await` without using
the returned object), which the embedding mirrors by keeping only the
resulting store. -/

/-- Errors thrown below `transferSpl` and propagated by it:
`feePayerMismatch` is the `BadRequestException` of the fee-payer check,
`signatureVerificationFailed` is `Transaction.serialize`'s error for a
missing or invalid required signature, `undefinedFeePayer` is the
`TypeError` from reading `staticAccountKeys[0]` of a keyless message,
`unknownSigner` is `VersionedTransaction.sign`'s assertion for a signer
that is not a required signer, and `broadcastRejected` is the network's
synchronous rejection of `sendRawTransaction`. -/
inductive SubmitError where
  | feePayerMismatch
  | signatureVerificationFailed
  | undefinedFeePayer
  | unknownSigner
  | broadcastRejected
  deriving Repr, DecidableEq

/-- Result value of `transferSpl`. -/
structure TransferResult where
  success : Bool
  message : String
  signature : Option String
  deriving Repr, DecidableEq

/-- `UsersService.transferSpl`: submit, poll until the loop exits, then
either return the failure result (finalized with on-chain error) or call
the Ledger Writer (ignoring its result) and return the success result.
`none` means the confirmation loop did not exit within `fuel`. -/
def transferSpl (submitOutcome : Except SubmitError String)
    (statuses : Nat → Option SignatureStatus) (fuel : Nat) (s : Store)
    (senderUid receiverUid : String) (amount : Int) (token : List TxToken) :
    Option (Except SubmitError (TransferResult × Store)) :=
  match submitOutcome with
  | Except.error e => some (Except.error e)
  | Except.ok signature =>
    match pollLoop statuses fuel 0 with
    | none => none
    | some last =>
      if (match last with | some st => st.err | none => false) then
        some (Except.ok
          ({ success := false, message := "SPL token transfer failed",
             signature := some signature }, s))
      else
        let r := createTransaction s
          { transaction_hash := signature, sender_uid := senderUid,
            receiver_uid := receiverUid, amount := amount, token := token,
            chain_id := 101, status := some TxStatus.completed }
        some (Except.ok
          ({ success := true, message := "SPL token transfer completed successfully",
             signature := some signature }, r.2))

/-- The empty store. -/
def emptyStore : Store := { users := [], transactions := [] }

/-- An all-finalized, no-error status stream. -/
def finOkStatuses : Nat → Option SignatureStatus := fun _ =>
  some { confirmationStatus := some ConfirmationStatus.finalized, err := false }

/-- C1 (counterexample): on-chain confirmation succeeds (finalized, no
error), yet the caller receives `success: true` with the signature while
zero ledger rows with that hash exist afterward — the ledger write fails
(no `users` row for the sender) and `transferSpl` ignores its result. So
"`success: true` exactly when one ledger row with that hash exists
afterward" is violated. -/
theorem transferSpl_ledger_iff_counterexample :
    transferSpl (Except.ok "sig0") finOkStatuses 0 emptyStore "s0" "r0" 1 [] =
      some (Except.ok
        ({ success := true, message := "SPL token transfer completed successfully",
           signature := some "sig0" }, emptyStore)) ∧
    emptyStore.transactions.countP (fun t => t.transaction_hash == "sig0") = 0 := by
  constructor
  · rfl
  · rfl

/-- C1 (amended): when the poller exits with a finalized status carrying an
on-chain error, the caller gets `success: false` with the signature and the
call writes nothing (store unchanged). When the poller exits with a null
status or a status without error, `transferSpl` invokes the Ledger Writer
with hash = signature and status `completed` and returns `success: true`
with the signature regardless of the writer's result; in that case, if the
sender and receiver each have a unique `users` row and no ledger row with
the signature hash exists beforehand, exactly one ledger row with that hash
exists afterward. -/
theorem transferSpl_ledger_amended (s : Store) (sig : String)
    (statuses : Nat → Option SignatureStatus) (fuel : Nat)
    (senderUid receiverUid : String) (amount : Int) (token : List TxToken)
    (last : Option SignatureStatus)
    (hpoll : pollLoop statuses fuel 0 = some last) :
    ((∃ st, last = some st ∧ st.err = true) →
      transferSpl (Except.ok sig) statuses fuel s senderUid receiverUid amount token =
        some (Except.ok
          ({ success := false, message := "SPL token transfer failed",
             signature := some sig }, s))) ∧
    ((∀ st, last = some st → st.err = false) →
      transferSpl (Except.ok sig) statuses fuel s senderUid receiverUid amount token =
        some (Except.ok
          ({ success := true, message := "SPL token transfer completed successfully",
             signature := some sig },
           (createTransaction s
             { transaction_hash := sig, sender_uid := senderUid,
               receiver_uid := receiverUid, amount := amount, token := token,
               chain_id := 101, status := some TxStatus.completed }).2))) ∧
    ((∀ st, last = some st → st.err = false) →
      (∃ u, usersById s senderUid = [u]) →
      (∃ u, usersById s receiverUid = [u]) →
      txByHash s sig = [] →
      ∃ s2, transferSpl (Except.ok sig) statuses fuel s senderUid receiverUid amount token =
          some (Except.ok
            ({ success := true, message := "SPL token transfer completed successfully",
               signature := some sig }, s2)) ∧
        s2.transactions.countP (fun t => t.transaction_hash == sig) = 1) := by
  refine ⟨?_, ?_, ?_⟩
  · rintro ⟨st, hst, herr⟩
    subst hst
    rw [transferSpl, hpoll]
    simp [herr]
  · intro hok
    rw [transferSpl, hpoll]
    cases last with
    | none => rfl
    | some st =>
      have hst := hok st rfl
      simp [hst]
  · intro hok hs hr hh
    obtain ⟨us, hus⟩ := hs
    obtain ⟨ur, hur⟩ := hr
    have hcount0 : s.transactions.countP (fun t => t.transaction_hash == sig) = 0 := by
      rw [List.countP_eq_length_filter]
      rw [txByHash] at hh
      rw [hh]
      rfl
    refine ⟨(createTransaction s
      { transaction_hash := sig, sender_uid := senderUid,
        receiver_uid := receiverUid, amount := amount, token := token,
        chain_id := 101, status := some TxStatus.completed }).2, ?_, ?_⟩
    · rw [transferSpl, hpoll]
      cases last with
      | none => rfl
      | some st =>
        have hst := hok st rfl
        simp [hst]
    · rw [createTransaction]
      rw [hus, hur]
      rw [show txByHash s sig = [] from hh]
      simp only [single?]
      rw [List.countP_append, hcount0]
      simp [List.countP_cons]

/-- Fixture store for the orchestrator witness: sender and receiver rows
exist, no ledger rows yet. -/
def orchStore : Store :=
  { users :=
      [{ user_id := "s0", phone_number := "+1111", cron_id := none, primary_address := none },
       { user_id := "r0", phone_number := "+2222", cron_id := none, primary_address := none }],
    transactions := [] }

theorem transferSpl_ledger_amended_witness :
    ∃ s2, transferSpl (Except.ok "sig0") finOkStatuses 0 orchStore "s0" "r0" 1 [] =
        some (Except.ok
          ({ success := true, message := "SPL token transfer completed successfully",
             signature := some "sig0" }, s2)) ∧
      s2.transactions.countP (fun t => t.transaction_hash == "sig0") = 1 :=
  (transferSpl_ledger_amended orchStore "sig0" finOkStatuses 0 "s0" "r0" 1 []
    (some { confirmationStatus := some ConfirmationStatus.finalized, err := false })
    rfl).2.2
    (by intro st hst; cases hst; rfl)
    ⟨_, rfl⟩ ⟨_, rfl⟩ rfl

/-! ## Transaction Submitter: `SolanaService.signAndSendTransaction`

`src/solana/solana.service.ts` lines 83–171, over a model of the
`@solana/web3.js` transaction objects. Signatures are idealized: a
signature produced over a message verifies exactly against that message,
so a signature is represented by the message it signs. The compiled legacy
message is reduced to the fields the flow depends on — its ordered
required-signer keys (the fee payer first) and the attached blockhash; the
required-signer list is determined by the instructions and fee payer and
is unchanged by blockhash attachment and signing. -/

/-- A compiled legacy message, idealized. -/
structure LegacyMessage where
  requiredSigners : List String
  blockhash : String
  deriving Repr, DecidableEq

/-- One entry of a legacy transaction's signature list: a public key and
an optional signature (idealized as the message it was produced over). -/
structure SigPair where
  publicKey : String
  signature : Option LegacyMessage
  deriving Repr, DecidableEq

/-- The legacy `Transaction` object: its fee payer, recent blockhash, the
required-signer keys its message compiles to, and its signature list (as
populated from the wire, caller partial signatures included). -/
structure LegacyTransaction where
  feePayer : Option String
  recentBlockhash : String
  msgRequiredSigners : List String
  signatures : List SigPair
  deriving Repr, DecidableEq

/-- `Transaction.compileMessage()`, idealized to the modelled fields. -/
def LegacyTransaction.compileMessage (tx : LegacyTransaction) : LegacyMessage :=
  { requiredSigners := tx.msgRequiredSigners, blockhash := tx.recentBlockhash }

/-- `@solana/web3.js` `Transaction.sign(...signers)` with one signer, as in
the source: the signature list is reset to the given signers, `_compile`
re-reconciles it with the message's required signers when the shapes
differ, and `_partialSign` fills the signer's slot with a signature over
the compiled message. Pre-existing signatures do not survive the reset. -/
def LegacyTransaction.signWith (tx : LegacyTransaction) (signer : String) : LegacyTransaction :=
  let msg := tx.compileMessage
  let reset : List SigPair := [{ publicKey := signer, signature := none }]
  let reconciled : List SigPair :=
    if reset.map (fun sp => sp.publicKey) = msg.requiredSigners then reset
    else msg.requiredSigners.map (fun pk => { publicKey := pk, signature := none })
  { tx with
    signatures := reconciled.map (fun sp =>
      if sp.publicKey == signer then { sp with signature := some msg } else sp) }

/-- `Transaction.serialize()` with its default configuration
(`requireAllSignatures: true`, `verifySignatures: true`): `_compile`'s
reconciliation of the signature list with the message, then verification
that every listed slot holds a signature valid over the message. Returns
the wire content (signature list and message), or `none` for the thrown
`Signature verification failed`. -/
def LegacyTransaction.serializeTx (tx : LegacyTransaction) :
    Option (List SigPair × LegacyMessage) :=
  let msg := tx.compileMessage
  let sigs :=
    if tx.signatures.map (fun sp => sp.publicKey) = msg.requiredSigners then tx.signatures
    else msg.requiredSigners.map (fun pk => { publicKey := pk, signature := none })
  if sigs.all (fun sp => sp.signature == some msg) then some (sigs, msg) else none

/-- The `VersionedTransaction` object: the static account keys of its
message (the fee payer is the key at index 0), the number of required
signatures, the serialized message content (opaque), and one signature
slot per required signer. -/
structure VersionedTx where
  staticAccountKeys : List String
  numRequiredSignatures : Nat
  messageData : String
  signatures : List (Option String)
  deriving Repr, DecidableEq

/-- `VersionedTransaction.sign(signers)` with one signer: find the signer
among the first `numRequiredSignatures` static keys (an assertion failure —
`none` — if absent) and set that slot to a signature over the message,
leaving every other slot as it came from the wire. -/
def VersionedTx.signWith (tx : VersionedTx) (signer : String) : Option VersionedTx :=
  match (tx.staticAccountKeys.take tx.numRequiredSignatures).findIdx?
      (fun pk => pk == signer) with
  | none => none
  | some i => some { tx with signatures := tx.signatures.set i (some tx.messageData) }

/-- The two wire formats `decodeTransaction` can yield. -/
inductive DecodedTx where
  | legacy (tx : LegacyTransaction)
  | versioned (tx : VersionedTx)
  deriving Repr, DecidableEq

/-- The fully signed serialized transaction handed to `sendRawTransaction`. -/
inductive WireTx where
  | legacy (content : List SigPair × LegacyMessage)
  | versioned (tx : VersionedTx)
  deriving Repr, DecidableEq

/-- The declared fee payer of a decoded transaction: `transaction.feePayer`
for the legacy format, `message.staticAccountKeys[0]` for the versioned
format. -/
def declaredFeePayer : DecodedTx → Option String
  | DecodedTx.legacy tx => tx.feePayer
  | DecodedTx.versioned tx => tx.staticAccountKeys.head?

/-- `SolanaService.signAndSendTransaction`, from the decoded transaction
on: the fee-payer check, then (legacy) fresh-blockhash attachment,
co-signing and serialization, or (versioned) in-place co-signing, then the
broadcast. The network is a function from the wire transaction to the
submission signature or a synchronous rejection. Returns the outcome
together with the number of `sendRawTransaction` invocations performed. -/
def signAndSendTransaction (decoded : DecodedTx) (serverKey : String)
    (freshBlockhash : String) (network : WireTx → Except SubmitError String) :
    Except SubmitError String × Nat :=
  match decoded with
  | DecodedTx.legacy tx =>
    if tx.feePayer ≠ some serverKey then
      (Except.error SubmitError.feePayerMismatch, 0)
    else
      let tx2 := { tx with recentBlockhash := freshBlockhash }
      let tx3 := tx2.signWith serverKey
      match tx3.serializeTx with
      | none => (Except.error SubmitError.signatureVerificationFailed, 0)
      | some wire =>
        match network (WireTx.legacy wire) with
        | Except.ok sig => (Except.ok sig, 1)
        | Except.error e => (Except.error e, 1)
  | DecodedTx.versioned tx =>
    match tx.staticAccountKeys.head? with
    | none => (Except.error SubmitError.undefinedFeePayer, 0)
    | some feePayer0 =>
      if feePayer0 ≠ serverKey then
        (Except.error SubmitError.feePayerMismatch, 0)
      else
        match tx.signWith serverKey with
        | none => (Except.error SubmitError.unknownSigner, 0)
        | some signed =>
          match network (WireTx.versioned signed) with
          | Except.ok sig => (Except.ok sig, 1)
          | Except.error e => (Except.error e, 1)

/-- C3: for every decoded transaction — legacy or versioned — whose
declared fee payer differs from the server's configured fee-payer key,
`signAndSendTransaction` fails with the fee-payer-mismatch error and
performs zero `sendRawTransaction` invocations, for every network and
every fresh blockhash. -/
theorem signAndSend_feePayer_mismatch_no_broadcast (decoded : DecodedTx)
    (serverKey freshBlockhash : String)
    (network : WireTx → Except SubmitError String) (k : String)
    (hdecl : declaredFeePayer decoded = some k) (hne : k ≠ serverKey) :
    signAndSendTransaction decoded serverKey freshBlockhash network =
      (Except.error SubmitError.feePayerMismatch, 0) := by
  cases decoded with
  | legacy tx =>
    have hfp : tx.feePayer = some k := hdecl
    rw [signAndSendTransaction]
    rw [if_pos (by rw [hfp]; simpa using hne)]
  | versioned tx =>
    have hfp : tx.staticAccountKeys.head? = some k := hdecl
    rw [signAndSendTransaction, hfp]
    simp only [if_pos hne]

/-- A caller-side network model accepting every broadcast. -/
def okNetwork : WireTx → Except SubmitError String := fun _ => Except.ok "sig0"

/-- A wrong-fee-payer legacy transaction for the C3 witness. -/
def mismatchTx : LegacyTransaction :=
  { feePayer := some "X", recentBlockhash := "bh0",
    msgRequiredSigners := ["X"], signatures := [{ publicKey := "X", signature := none }] }

theorem signAndSend_feePayer_mismatch_no_broadcast_witness :
    signAndSendTransaction (DecodedTx.legacy mismatchTx) "S" "bh1" okNetwork =
      (Except.error SubmitError.feePayerMismatch, 0) :=
  signAndSend_feePayer_mismatch_no_broadcast (DecodedTx.legacy mismatchTx)
    "S" "bh1" okNetwork "X" rfl (by decide)

/-- The message a caller co-signer signed in the C4 counterexample: the
original message of `c4tx`, before the blockhash refresh. -/
def c4OrigMsg : LegacyMessage := { requiredSigners := ["S", "C"], blockhash := "bh0" }

/-- A legacy transaction with the server fee payer `"S"` and a caller
partial signature by `"C"` over the original message. -/
def c4tx : LegacyTransaction :=
  { feePayer := some "S", recentBlockhash := "bh0",
    msgRequiredSigners := ["S", "C"],
    signatures :=
      [{ publicKey := "S", signature := none },
       { publicKey := "C", signature := some c4OrigMsg }] }

/-- C4 (counterexample): a legacy transaction that passes the fee-payer
check and carries a caller partial signature. After the fresh blockhash is
attached and the server co-signs, the caller's signature is no longer
present in the transaction's signature list (`Transaction.sign` resets the
list), and serialization fails with the missing required signature, so no
bytes at all are broadcast — the caller's signature is not "still present
and valid in the serialized bytes that are broadcast". -/
theorem legacy_preserves_caller_sigs_counterexample :
    ({ publicKey := "C", signature := some c4OrigMsg } : SigPair) ∈ c4tx.signatures ∧
    (∀ sp ∈ (LegacyTransaction.signWith
        { c4tx with recentBlockhash := "bh1" } "S").signatures,
      sp.publicKey = "C" → sp.signature = none) ∧
    signAndSendTransaction (DecodedTx.legacy c4tx) "S" "bh1" okNetwork =
      (Except.error SubmitError.signatureVerificationFailed, 0) := by
  refine ⟨by decide, by decide, rfl⟩

/-- What `Transaction.sign` leaves in the signature list: one slot per
required signer of the compiled message, the signer's slot holding a
signature over that message and every other slot empty. -/
theorem signWith_signatures (fp : Option String) (bh : String)
    (req : List String) (sigs : List SigPair) (k : String) :
    (LegacyTransaction.signWith
      { feePayer := fp, recentBlockhash := bh, msgRequiredSigners := req,
        signatures := sigs } k).signatures =
      req.map (fun pk =>
        { publicKey := pk,
          signature := if pk = k then
            some { requiredSigners := req, blockhash := bh } else none }) := by
  simp only [LegacyTransaction.signWith, LegacyTransaction.compileMessage,
    List.map_cons, List.map_nil]
  by_cases hone : [k] = req
  · rw [if_pos hone]
    subst hone
    simp
  · rw [if_neg hone]
    rw [List.map_map]
    apply List.map_congr_left
    intro pk _
    by_cases hpk : pk = k
    · simp [hpk]
    · simp [hpk]

theorem signed_keys_eq (req : List String) (k : String) (bh : String) :
    ((req.map (fun pk =>
      ({ publicKey := pk,
         signature := if pk = k then
           some { requiredSigners := req, blockhash := bh } else none } : SigPair))).map
      (fun sp => sp.publicKey)) = req := by
  rw [List.map_map]
  have hcomp : ((fun sp : SigPair => sp.publicKey) ∘ (fun pk =>
      ({ publicKey := pk,
         signature := if pk = k then
           some { requiredSigners := req, blockhash := bh } else none } : SigPair))) =
      fun pk => pk := by
    funext pk
    rfl
  rw [hcomp]
  exact List.map_id req

/-- C4 (amended): for every legacy transaction that passes the fee-payer
check (with the compiled message's fee-payer-first invariant), the
Submitter attaches the fresh network blockhash and co-signs, after which
the signature list holds one slot per required signer of the new-blockhash
message, the server's slot carrying a fresh signature and every other slot
empty — caller partial signatures are discarded, not preserved. When the
server key is the sole required signer, the broadcast happens (exactly one
`sendRawTransaction` invocation) with the server's fresh signature as the
only signature in the bytes; when some other signer is required, the
default serialization fails and nothing is broadcast. -/
theorem signAndSendLegacy_amended (tx : LegacyTransaction)
    (serverKey freshBlockhash : String)
    (network : WireTx → Except SubmitError String)
    (hfp : tx.feePayer = some serverKey)
    (hhead : tx.msgRequiredSigners.head? = some serverKey) :
    ((LegacyTransaction.signWith
        { tx with recentBlockhash := freshBlockhash } serverKey).signatures =
      tx.msgRequiredSigners.map (fun pk =>
        { publicKey := pk,
          signature := if pk = serverKey then
            some { requiredSigners := tx.msgRequiredSigners,
                   blockhash := freshBlockhash }
            else none })) ∧
    (tx.msgRequiredSigners = [serverKey] →
      signAndSendTransaction (DecodedTx.legacy tx) serverKey freshBlockhash network =
        (network (WireTx.legacy
          ([{ publicKey := serverKey,
              signature := some { requiredSigners := [serverKey],
                                  blockhash := freshBlockhash } }],
           { requiredSigners := [serverKey], blockhash := freshBlockhash })), 1)) ∧
    ((∃ pk ∈ tx.msgRequiredSigners, pk ≠ serverKey) →
      signAndSendTransaction (DecodedTx.legacy tx) serverKey freshBlockhash network =
        (Except.error SubmitError.signatureVerificationFailed, 0)) := by
  obtain ⟨fp, rbh, req, sigs⟩ := tx
  have hfp' : fp = some serverKey := hfp
  subst hfp'
  refine ⟨signWith_signatures _ _ _ _ _, ?_, ?_⟩
  · intro hsole
    have hsole' : req = [serverKey] := hsole
    subst hsole'
    rw [signAndSendTransaction]
    rw [if_neg (by simp)]
    have hser : (LegacyTransaction.signWith
        { feePayer := some serverKey, recentBlockhash := freshBlockhash,
          msgRequiredSigners := [serverKey], signatures := sigs }
        serverKey).serializeTx =
        some ([{ publicKey := serverKey,
                 signature := some { requiredSigners := [serverKey],
                                     blockhash := freshBlockhash } }],
              { requiredSigners := [serverKey], blockhash := freshBlockhash }) := by
      rw [LegacyTransaction.serializeTx]
      simp only [LegacyTransaction.signWith, LegacyTransaction.compileMessage]
      simp
    simp only [hser]
    cases network (WireTx.legacy
      ([{ publicKey := serverKey,
          signature := some { requiredSigners := [serverKey],
                              blockhash := freshBlockhash } }],
       { requiredSigners := [serverKey], blockhash := freshBlockhash })) <;> rfl
  · rintro ⟨pk, hmem, hne⟩
    have hmem' : pk ∈ req := hmem
    rw [signAndSendTransaction]
    rw [if_neg (by simp)]
    have hser : (LegacyTransaction.signWith
        { feePayer := some serverKey, recentBlockhash := freshBlockhash,
          msgRequiredSigners := req, signatures := sigs }
        serverKey).serializeTx = none := by
      have hsig := signWith_signatures (some serverKey) freshBlockhash req sigs serverKey
      rw [LegacyTransaction.serializeTx]
      have hmsg : (LegacyTransaction.signWith
          { feePayer := some serverKey, recentBlockhash := freshBlockhash,
            msgRequiredSigners := req, signatures := sigs }
          serverKey).compileMessage =
          { requiredSigners := req, blockhash := freshBlockhash } := rfl
      rw [hmsg, hsig, signed_keys_eq, if_pos rfl]
      have hall : ((req.map (fun pk =>
          ({ publicKey := pk,
             signature := if pk = serverKey then
               some { requiredSigners := req, blockhash := freshBlockhash }
               else none } : SigPair))).all (fun sp =>
            sp.signature == some { requiredSigners := req,
                                   blockhash := freshBlockhash })) = false := by
        rw [Bool.eq_false_iff]
        rw [Ne, List.all_eq_true]
        intro hforall
        have := hforall ({ publicKey := pk, signature := none } : SigPair)
          (by
            rw [List.mem_map]
            exact ⟨pk, hmem', by simp [hne]⟩)
        simp at this
      rw [hall]
      rfl
    simp only [hser]

/-- A fee-payer-only legacy transaction for the C4 witness. -/
def soloTx : LegacyTransaction :=
  { feePayer := some "S", recentBlockhash := "bh0",
    msgRequiredSigners := ["S"],
    signatures := [{ publicKey := "S", signature := none }] }

theorem signAndSendLegacy_amended_witness :
    signAndSendTransaction (DecodedTx.legacy soloTx) "S" "bh1" okNetwork =
      (Except.ok "sig0", 1) := by
  have h := (signAndSendLegacy_amended soloTx "S" "bh1" okNetwork rfl rfl).2.1 rfl
  exact h

/-! ## Text decoders: `SolanaService.decodeTransaction`

`src/solana/solana.service.ts` lines 58–72: the buffer-producing stage of
`decodeTransaction` (before the wire-format deserialization attempts).
Bytes are naturals below 256.

The hex and base64 paths call Node's `Buffer.from(string, encoding)`,
which never throws: the hex decoder consumes two-character pairs from the
start and stops (truncating, possibly to empty) at the first pair
containing a non-hex character or at a trailing odd character; the base64
decoder silently skips characters outside the base64 alphabet (padding and
whitespace included) and regroups the remaining 6-bit values into bytes.
The base58 path calls `bs58.decode`, which throws on any character outside
the base58 alphabet. -/

/-- Value of a hexadecimal character, `none` for a non-hex character. -/
def hexVal (c : Char) : Option Nat :=
  if '0' ≤ c ∧ c ≤ '9' then some (c.toNat - '0'.toNat)
  else if 'a' ≤ c ∧ c ≤ 'f' then some (c.toNat - 'a'.toNat + 10)
  else if 'A' ≤ c ∧ c ≤ 'F' then some (c.toNat - 'A'.toNat + 10)
  else none

/-- `Buffer.from(s, 'hex')`: decode complete valid pairs from the start,
stop at the first invalid pair or trailing odd character. Total. -/
def nodeHexDecode : List Char → List Nat
  | c1 :: c2 :: rest =>
    match hexVal c1, hexVal c2 with
    | some hi, some lo => (16 * hi + lo) :: nodeHexDecode rest
    | _, _ => []
  | _ => []

/-- Lowercase hexadecimal digit for a value below 16. -/
def hexDigit (n : Nat) : Char :=
  if n < 10 then Char.ofNat ('0'.toNat + n) else Char.ofNat ('a'.toNat + n - 10)

/-- `buffer.toString('hex')`: two lowercase digits per byte. -/
def hexEncode : List Nat → List Char
  | [] => []
  | b :: bs => hexDigit (b / 16) :: hexDigit (b % 16) :: hexEncode bs

theorem hexVal_hexDigit {n : Nat} (h : n < 16) : hexVal (hexDigit n) = some n := by
  have : ∀ m : Fin 16, hexVal (hexDigit m.val) = some m.val := by decide
  exact this ⟨n, h⟩

/-- Hex roundtrip: decoding the hex encoding of a byte list recovers it. -/
theorem nodeHexDecode_hexEncode (bs : List Nat) (h : ∀ b ∈ bs, b < 256) :
    nodeHexDecode (hexEncode bs) = bs := by
  induction bs with
  | nil => rfl
  | cons b rest ih =>
    have hb : b < 256 := h b (List.mem_cons_self _ _)
    rw [hexEncode, nodeHexDecode]
    rw [hexVal_hexDigit (by omega), hexVal_hexDigit (by omega)]
    rw [ih (fun x hx => h x (List.mem_cons_of_mem _ hx))]
    show (16 * (b / 16) + b % 16) :: rest = b :: rest
    have : 16 * (b / 16) + b % 16 = b := by omega
    rw [this]

/-- The standard base64 alphabet character for a value below 64. -/
def b64Chr (n : Nat) : Char :=
  if n < 26 then Char.ofNat ('A'.toNat + n)
  else if n < 52 then Char.ofNat ('a'.toNat + n - 26)
  else if n < 62 then Char.ofNat ('0'.toNat + n - 52)
  else if n = 62 then '+'
  else '/'

/-- Value of a standard base64 alphabet character, `none` otherwise
(padding `=` included). -/
def b64Val (c : Char) : Option Nat :=
  if 'A' ≤ c ∧ c ≤ 'Z' then some (c.toNat - 'A'.toNat)
  else if 'a' ≤ c ∧ c ≤ 'z' then some (c.toNat - 'a'.toNat + 26)
  else if '0' ≤ c ∧ c ≤ '9' then some (c.toNat - '0'.toNat + 52)
  else if c = '+' then some 62
  else if c = '/' then some 63
  else none

/-- Regroup 6-bit values into 8-bit bytes (a final group of two or three
values yields one or two bytes; a lone trailing value is dropped). -/
def b64Regroup : List Nat → List Nat
  | v1 :: v2 :: v3 :: v4 :: rest =>
    (v1 * 4 + v2 / 16) :: ((v2 % 16) * 16 + v3 / 4) :: ((v3 % 4) * 64 + v4) ::
      b64Regroup rest
  | [v1, v2] => [v1 * 4 + v2 / 16]
  | [v1, v2, v3] => [v1 * 4 + v2 / 16, (v2 % 16) * 16 + v3 / 4]
  | _ => []

/-- `Buffer.from(s, 'base64')`: skip characters outside the alphabet,
regroup the remaining 6-bit values. Total. -/
def nodeB64Decode (cs : List Char) : List Nat :=
  b64Regroup (cs.filterMap b64Val)

/-- `buffer.toString('base64')`: standard base64 with `=` padding. -/
def b64Encode : List Nat → List Char
  | b1 :: b2 :: b3 :: rest =>
    b64Chr (b1 / 4) :: b64Chr ((b1 % 4) * 16 + b2 / 16) ::
      b64Chr ((b2 % 16) * 4 + b3 / 64) :: b64Chr (b3 % 64) :: b64Encode rest
  | [b1] => [b64Chr (b1 / 4), b64Chr ((b1 % 4) * 16), '=', '=']
  | [b1, b2] => [b64Chr (b1 / 4), b64Chr ((b1 % 4) * 16 + b2 / 16), b64Chr ((b2 % 16) * 4), '=']
  | [] => []

theorem b64Val_b64Chr {n : Nat} (h : n < 64) : b64Val (b64Chr n) = some n := by
  have : ∀ m : Fin 64, b64Val (b64Chr m.val) = some m.val := by decide
  exact this ⟨n, h⟩

theorem b64Val_pad : b64Val '=' = none := by decide

/-- Base64 roundtrip: decoding the padded base64 encoding of a byte list
recovers it. -/
theorem nodeB64Decode_b64Encode (bs : List Nat) (h : ∀ b ∈ bs, b < 256) :
    nodeB64Decode (b64Encode bs) = bs := by
  induction bs using b64Encode.induct with
  | case1 b1 b2 b3 rest ih =>
    have h1 : b1 < 256 := h b1 (by simp)
    have h2 : b2 < 256 := h b2 (by simp)
    have h3 : b3 < 256 := h b3 (by simp)
    have ih' := ih (fun x hx => h x (by simp [hx]))
    rw [nodeB64Decode] at ih' ⊢
    rw [b64Encode]
    rw [List.filterMap_cons, b64Val_b64Chr (by omega)]
    rw [List.filterMap_cons, b64Val_b64Chr (by omega)]
    rw [List.filterMap_cons, b64Val_b64Chr (by omega)]
    rw [List.filterMap_cons, b64Val_b64Chr (by omega)]
    rw [b64Regroup, ih']
    have e1 : b1 / 4 * 4 + ((b1 % 4) * 16 + b2 / 16) / 16 = b1 := by omega
    have e2 : ((b1 % 4) * 16 + b2 / 16) % 16 * 16 + ((b2 % 16) * 4 + b3 / 64) / 4 = b2 := by
      omega
    have e3 : ((b2 % 16) * 4 + b3 / 64) % 4 * 64 + b3 % 64 = b3 := by omega
    rw [e1, e2, e3]
  | case2 b1 =>
    have h1 : b1 < 256 := h b1 (by simp)
    rw [nodeB64Decode, b64Encode]
    rw [List.filterMap_cons, b64Val_b64Chr (by omega)]
    rw [List.filterMap_cons, b64Val_b64Chr (by omega)]
    rw [List.filterMap_cons, b64Val_pad, List.filterMap_cons, b64Val_pad]
    rw [List.filterMap_nil, b64Regroup]
    have e1 : b1 / 4 * 4 + (b1 % 4) * 16 / 16 = b1 := by omega
    rw [e1]
  | case3 b1 b2 =>
    have h1 : b1 < 256 := h b1 (by simp)
    have h2 : b2 < 256 := h b2 (by simp)
    rw [nodeB64Decode, b64Encode]
    rw [List.filterMap_cons, b64Val_b64Chr (by omega)]
    rw [List.filterMap_cons, b64Val_b64Chr (by omega)]
    rw [List.filterMap_cons, b64Val_b64Chr (by omega)]
    rw [List.filterMap_cons, b64Val_pad]
    rw [List.filterMap_nil, b64Regroup]
    have e1 : b1 / 4 * 4 + ((b1 % 4) * 16 + b2 / 16) / 16 = b1 := by omega
    have e2 : ((b1 % 4) * 16 + b2 / 16) % 16 * 16 + (b2 % 16) * 4 / 4 = b2 := by omega
    rw [e1, e2]
  | case4 => rfl

/-! ### Big-endian radix conversion

The number-theoretic content of the `base-x` loops used by `bs58`:
a big-endian digit string denotes `foldl (acc * B + d) 0`, and a natural
number is written as its big-endian digit string (empty for zero). -/

/-- Big-endian value of a digit string in base `B`, as the base-x decode
loop accumulates it. -/
def digitsVal (B : Nat) (ds : List Nat) : Nat :=
  ds.foldl (fun acc d => acc * B + d) 0

/-- Fuel-driven big-endian digit expansion. -/
def natDigitsAux (B : Nat) : Nat → Nat → List Nat
  | 0, _ => []
  | fuel + 1, n => if n = 0 then [] else natDigitsAux B fuel (n / B) ++ [n % B]

/-- Big-endian base-`B` digits of `n`, most significant first, empty for
zero, as base-x's repeated divmod produces them. -/
def natDigits (B n : Nat) : List Nat := natDigitsAux B n n

theorem natDigitsAux_zero (B fuel : Nat) : natDigitsAux B fuel 0 = [] := by
  cases fuel <;> rfl

theorem natDigitsAux_fuel_irrel (B : Nat) (hB : 1 < B) (n : Nat) :
    ∀ fuel fuel', n ≤ fuel → n ≤ fuel' →
      natDigitsAux B fuel n = natDigitsAux B fuel' n := by
  induction n using Nat.strong_induction_on with
  | _ n ih =>
    intro fuel fuel' hf hf'
    match n with
    | 0 => rw [natDigitsAux_zero, natDigitsAux_zero]
    | m + 1 =>
      cases fuel with
      | zero => omega
      | succ a =>
        cases fuel' with
        | zero => omega
        | succ b =>
          show (if m + 1 = 0 then [] else natDigitsAux B a ((m + 1) / B) ++ [(m + 1) % B]) =
            (if m + 1 = 0 then [] else natDigitsAux B b ((m + 1) / B) ++ [(m + 1) % B])
          rw [if_neg (by omega), if_neg (by omega)]
          have hdiv : (m + 1) / B < m + 1 := Nat.div_lt_self (by omega) hB
          rw [ih ((m + 1) / B) hdiv a b (by omega) (by omega)]

theorem natDigits_eq (B : Nat) (hB : 1 < B) (n : Nat) (hn : n ≠ 0) :
    natDigits B n = natDigits B (n / B) ++ [n % B] := by
  match n with
  | 0 => exact absurd rfl hn
  | m + 1 =>
    show natDigitsAux B (m + 1) (m + 1) = natDigitsAux B ((m + 1) / B) ((m + 1) / B) ++ _
    show (if m + 1 = 0 then [] else natDigitsAux B m ((m + 1) / B) ++ [(m + 1) % B]) = _
    rw [if_neg (by omega)]
    have hdiv : (m + 1) / B < m + 1 := Nat.div_lt_self (by omega) hB
    rw [natDigitsAux_fuel_irrel B hB ((m + 1) / B) m ((m + 1) / B) (by omega) (le_refl _)]

theorem digitsVal_append_singleton (B : Nat) (xs : List Nat) (d : Nat) :
    digitsVal B (xs ++ [d]) = digitsVal B xs * B + d := by
  rw [digitsVal, List.foldl_append]
  rfl

theorem digitsVal_natDigits (B : Nat) (hB : 1 < B) (n : Nat) :
    digitsVal B (natDigits B n) = n := by
  induction n using Nat.strong_induction_on with
  | _ n ih =>
    match n with
    | 0 => rfl
    | m + 1 =>
      rw [natDigits_eq B hB (m + 1) (by omega), digitsVal_append_singleton]
      rw [ih ((m + 1) / B) (Nat.div_lt_self (by omega) hB)]
      rw [Nat.mul_comm]
      exact Nat.div_add_mod (m + 1) B

theorem natDigits_lt (B : Nat) (hB : 1 < B) (n : Nat) :
    ∀ d ∈ natDigits B n, d < B := by
  induction n using Nat.strong_induction_on with
  | _ n ih =>
    match n with
    | 0 => intro d hd; exact absurd hd (by simp [natDigits, natDigitsAux])
    | m + 1 =>
      rw [natDigits_eq B hB (m + 1) (by omega)]
      intro d hd
      rcases List.mem_append.mp hd with h1 | h2
      · exact ih ((m + 1) / B) (Nat.div_lt_self (by omega) hB) d h1
      · have hd' : d = (m + 1) % B := by simpa using h2
        rw [hd']
        exact Nat.mod_lt _ (by omega)

theorem natDigits_ne_nil (B : Nat) (hB : 1 < B) (n : Nat) (hn : n ≠ 0) :
    natDigits B n ≠ [] := by
  rw [natDigits_eq B hB n hn]
  simp

theorem natDigits_head_ne_zero (B : Nat) (hB : 1 < B) (n : Nat) :
    ∀ d ds, natDigits B n = d :: ds → d ≠ 0 := by
  induction n using Nat.strong_induction_on with
  | _ n ih =>
    intro d ds hds
    match n with
    | 0 => simp [natDigits, natDigitsAux] at hds
    | m + 1 =>
      rw [natDigits_eq B hB (m + 1) (by omega)] at hds
      by_cases hq : (m + 1) / B = 0
      · rw [hq] at hds
        rw [show natDigits B 0 = [] from rfl] at hds
        have hd' : d = (m + 1) % B := by
          have := List.head_eq_of_cons_eq hds.symm
          omega
        have hlt : m + 1 < B := by
          rcases Nat.lt_or_ge (m + 1) B with h | h
          · exact h
          · exact absurd hq (by
              have := Nat.div_le_div_right (c := B) h
              rw [Nat.div_self (by omega)] at this
              omega)
        rw [hd', Nat.mod_eq_of_lt hlt]
        omega
      · match hnd : natDigits B ((m + 1) / B) with
        | [] => exact absurd hnd (natDigits_ne_nil B hB _ hq)
        | x :: t =>
          rw [hnd] at hds
          have hx : d = x := (List.head_eq_of_cons_eq (by simpa using hds.symm))
          rw [hx]
          exact ih ((m + 1) / B) (Nat.div_lt_self (by omega) hB) x t hnd

theorem digitsVal_pos (B : Nat) (hB : 1 < B) (x : Nat) (xs : List Nat) (hx : x ≠ 0) :
    0 < digitsVal B (x :: xs) := by
  have gen : ∀ (l : List Nat) (acc : Nat), 0 < acc →
      0 < l.foldl (fun acc d => acc * B + d) acc := by
    intro l
    induction l with
    | nil => intro acc h; simpa using h
    | cons d t iht =>
      intro acc h
      rw [List.foldl_cons]
      exact iht (acc * B + d)
        (Nat.lt_of_lt_of_le (Nat.mul_pos h (by omega)) (Nat.le_add_right _ _))
  rw [digitsVal, List.foldl_cons]
  apply gen
  rw [Nat.zero_mul, Nat.zero_add]
  omega

theorem natDigits_digitsVal (B : Nat) (hB : 1 < B) :
    ∀ ds : List Nat, (∀ d ∈ ds, d < B) → (∀ x xs, ds = x :: xs → x ≠ 0) →
      natDigits B (digitsVal B ds) = ds := by
  intro ds
  induction ds using List.reverseRecOn with
  | nil => intro _ _; rfl
  | append_singleton xs d ih =>
    intro hlt hhd
    rw [digitsVal_append_singleton]
    have hdB : d < B := hlt d (by simp)
    by_cases hz : digitsVal B xs * B + d = 0
    · have hd0 : d = 0 := by omega
      have hV0 : digitsVal B xs * B = 0 := by omega
      have hV0' : digitsVal B xs = 0 := by
        rcases Nat.mul_eq_zero.mp hV0 with h | h
        · exact h
        · omega
      match xs with
      | [] => exact absurd hd0 (hhd d [] rfl)
      | x :: t =>
        have hx : x ≠ 0 := hhd x (t ++ [d]) (by simp)
        exact absurd hV0' (by
          have := digitsVal_pos B hB x t hx
          omega)
    · rw [natDigits_eq B hB _ hz]
      have hdiv : (digitsVal B xs * B + d) / B = digitsVal B xs := by
        rw [Nat.add_comm, Nat.add_mul_div_right _ _ (by omega : 0 < B)]
        rw [Nat.div_eq_of_lt hdB, Nat.zero_add]
      have hmod : (digitsVal B xs * B + d) % B = d := by
        rw [Nat.mul_comm, Nat.mul_add_mod]
        exact Nat.mod_eq_of_lt hdB
      rw [hdiv, hmod]
      have hxs : natDigits B (digitsVal B xs) = xs := by
        apply ih
        · intro x hx; exact hlt x (by simp [hx])
        · intro x t hxt
          exact hhd x (t ++ [d]) (by rw [hxt]; rfl)
      rw [hxs]

/-! ### Base58 (`bs58`, i.e. `base-x` over the Bitcoin alphabet) -/

/-- The `bs58` alphabet. -/
def b58Alphabet : List Char :=
  "123456789ABCDEFGHJKLMNPQRSTUVWXYZabcdefghijkmnopqrstuvwxyz".data

/-- Alphabet character of a base58 digit. -/
def b58Chr (n : Nat) : Char := b58Alphabet.getD n '?'

/-- Digit value of a character, `none` for a character outside the
alphabet (on which `bs58.decode` throws). -/
def b58Val (c : Char) : Option Nat := b58Alphabet.findIdx? (fun x => x == c)

/-- Character-by-character validation of a base58 string: `none` as soon
as one character is outside the alphabet, as the base-x decode loop
behaves. -/
def b58Vals? : List Char → Option (List Nat)
  | [] => some []
  | c :: cs =>
    match b58Val c, b58Vals? cs with
    | some v, some vs => some (v :: vs)
    | _, _ => none

/-- `bs58.encode`: one `'1'` per leading zero byte, then the big-endian
base58 digits of the byte string's value. -/
def b58Encode (bs : List Nat) : List Char :=
  List.replicate ((bs.takeWhile (fun b => b == 0)).length) '1' ++
    (natDigits 58 (digitsVal 256 bs)).map b58Chr

/-- `bs58.decode`: `none` (the thrown non-base58-character error) when any
character is outside the alphabet; otherwise one zero byte per leading
`'1'`, then the big-endian base-256 bytes of the digit string's value. -/
def b58Decode (cs : List Char) : Option (List Nat) :=
  match b58Vals? cs with
  | none => none
  | some vs =>
    some (List.replicate ((cs.takeWhile (fun c => c == '1')).length) 0 ++
      natDigits 256 (digitsVal 58 vs))

theorem b58Val_b58Chr {n : Nat} (h : n < 58) : b58Val (b58Chr n) = some n := by
  have : ∀ m : Fin 58, b58Val (b58Chr m.val) = some m.val := by decide
  exact this ⟨n, h⟩

theorem b58Chr_ne_one {n : Nat} (h : n < 58) (hn : n ≠ 0) : b58Chr n ≠ '1' := by
  have : ∀ m : Fin 58, m.val ≠ 0 → b58Chr m.val ≠ '1' := by decide
  exact this ⟨n, h⟩ hn

theorem b58Vals?_append {xs ys : List Char} {vs ws : List Nat}
    (hx : b58Vals? xs = some vs) (hy : b58Vals? ys = some ws) :
    b58Vals? (xs ++ ys) = some (vs ++ ws) := by
  induction xs generalizing vs with
  | nil =>
    simp only [b58Vals?, Option.some.injEq] at hx
    subst hx
    simpa using hy
  | cons c cs ih =>
    rw [b58Vals?] at hx
    match hv : b58Val c, hvs : b58Vals? cs with
    | some v, some vs' =>
      rw [hv, hvs] at hx
      have hx' : v :: vs' = vs := by simpa using hx
      rw [List.cons_append, b58Vals?, hv, ih hvs]
      rw [← hx']
      rfl
    | some v, none => rw [hv, hvs] at hx; exact absurd hx (by simp)
    | none, _ => rw [hv] at hx; exact absurd hx (by simp)

theorem b58Vals?_replicate_one (k : Nat) :
    b58Vals? (List.replicate k '1') = some (List.replicate k 0) := by
  induction k with
  | zero => rfl
  | succ k ih =>
    rw [List.replicate_succ, b58Vals?, ih]
    rfl

theorem b58Vals?_map_chr (ds : List Nat) (h : ∀ d ∈ ds, d < 58) :
    b58Vals? (ds.map b58Chr) = some ds := by
  induction ds with
  | nil => rfl
  | cons d t ih =>
    rw [List.map_cons, b58Vals?, b58Val_b58Chr (h d (by simp)),
      ih (fun x hx => h x (by simp [hx]))]

theorem b58Vals?_none {cs : List Char} {c : Char}
    (hmem : c ∈ cs) (hc : b58Val c = none) : b58Vals? cs = none := by
  induction cs with
  | nil => cases hmem
  | cons a t ih =>
    rw [b58Vals?]
    rcases List.mem_cons.mp hmem with h | h
    · rw [← h, hc]
    · match hv : b58Val a with
      | none => rfl
      | some v => rw [ih h]

theorem takeWhile_replicate_append {α : Type} (p : α → Bool) (a : α)
    (hp : p a = true) (k : Nat) (l : List α) :
    (List.replicate k a ++ l).takeWhile p = List.replicate k a ++ l.takeWhile p := by
  induction k with
  | zero => simp
  | succ k ih =>
    rw [List.replicate_succ, List.cons_append, List.takeWhile_cons, hp]
    simp [ih]

theorem digitsVal_replicate_zero_append (B k : Nat) (l : List Nat) :
    digitsVal B (List.replicate k 0 ++ l) = digitsVal B l := by
  induction k with
  | zero => rfl
  | succ k ih =>
    rw [List.replicate_succ, List.cons_append, digitsVal, List.foldl_cons]
    rw [Nat.zero_mul, Nat.zero_add]
    exact ih

/-- Base58 roundtrip: decoding the base58 encoding of a byte list recovers
it exactly. -/
theorem b58Decode_b58Encode (bs : List Nat) (h : ∀ b ∈ bs, b < 256) :
    b58Decode (b58Encode bs) = some bs := by
  have htk : bs.takeWhile (fun b => b == 0) =
      List.replicate ((bs.takeWhile (fun b => b == 0)).length) 0 := by
    rw [List.eq_replicate_iff]
    refine ⟨rfl, fun b hb => by simpa using List.mem_takeWhile_imp hb⟩
  have hbs : List.replicate ((bs.takeWhile (fun b => b == 0)).length) 0 ++
      bs.dropWhile (fun b => b == 0) = bs := by
    rw [← htk]
    exact List.takeWhile_append_dropWhile _ _
  have hval : digitsVal 256 bs = digitsVal 256 (bs.dropWhile (fun b => b == 0)) := by
    conv => lhs; rw [← hbs]
    exact digitsVal_replicate_zero_append _ _ _
  have hrest_lt : ∀ b ∈ bs.dropWhile (fun b => b == 0), b < 256 :=
    fun b hb => h b (List.dropWhile_subset _ hb)
  have hrest_hd : ∀ x t, bs.dropWhile (fun b => b == 0) = x :: t → x ≠ 0 := by
    intro x t hxt
    have := List.head?_dropWhile_not (fun b => b == 0) bs
    rw [hxt] at this
    simpa using this
  have hd58 : ∀ d ∈ natDigits 58 (digitsVal 256 bs), d < 58 :=
    natDigits_lt 58 (by omega) _
  -- the encoded string, decomposed
  rw [b58Decode, b58Encode]
  rw [b58Vals?_append (b58Vals?_replicate_one _) (b58Vals?_map_chr _ hd58)]
  -- leading-'1' count of the encoded string
  have htake : ((List.replicate ((bs.takeWhile (fun b => b == 0)).length) '1' ++
      (natDigits 58 (digitsVal 256 bs)).map b58Chr).takeWhile
        (fun c => c == '1')).length =
      (bs.takeWhile (fun b => b == 0)).length := by
    rw [takeWhile_replicate_append (fun c => c == '1') '1' (by decide)]
    have hmap : ((natDigits 58 (digitsVal 256 bs)).map b58Chr).takeWhile
        (fun c => c == '1') = [] := by
      match hnd : natDigits 58 (digitsVal 256 bs) with
      | [] => rfl
      | d :: t =>
        have hd0 : d ≠ 0 := natDigits_head_ne_zero 58 (by omega) _ d t hnd
        have hdlt : d < 58 := hd58 d (by rw [hnd]; simp)
        rw [List.map_cons, List.takeWhile_cons]
        rw [show ((b58Chr d == '1') = false) by
          simpa using b58Chr_ne_one hdlt hd0]
        rfl
    rw [hmap]
    simp
  rw [htake]
  -- the digit string's value is the byte string's value
  show some (List.replicate ((bs.takeWhile (fun b => b == 0)).length) 0 ++
    natDigits 256 (digitsVal 58
      (List.replicate ((bs.takeWhile (fun b => b == 0)).length) 0 ++
        natDigits 58 (digitsVal 256 bs)))) = some bs
  rw [digitsVal_replicate_zero_append]
  rw [digitsVal_natDigits 58 (by omega)]
  rw [hval]
  rw [natDigits_digitsVal 256 (by omega) _ hrest_lt hrest_hd]
  rw [hbs]

/-- The `Encoding` enum of `SolanaService`. -/
inductive Encoding where
  | base64
  | base58
  | hex
  deriving Repr, DecidableEq

/-- The decode failure the decode step can throw (`bs58.decode`'s
non-base58-character error). -/
inductive DecodeError where
  | nonBase58Character
  deriving Repr, DecidableEq

/-- The buffer-producing stage of `SolanaService.decodeTransaction` (before
the wire-format deserialization attempts): hex and base64 through Node's
total `Buffer.from`, base58 through `bs58.decode`. -/
def decodeTransactionBytes (encodedTransaction : String) (encoding : Encoding) :
    Except DecodeError (List Nat) :=
  match encoding with
  | Encoding.hex => Except.ok (nodeHexDecode encodedTransaction.data)
  | Encoding.base64 => Except.ok (nodeB64Decode encodedTransaction.data)
  | Encoding.base58 =>
    match b58Decode encodedTransaction.data with
    | none => Except.error DecodeError.nonBase58Character
    | some bs => Except.ok bs

/-- C8: encoding one byte sequence as hex, as standard base64, and as
base58 and passing each encoded string to the decode step with the matching
encoding tag yields byte-identical buffers — each decodes to exactly the
original bytes. -/
theorem decodeTransaction_encodings_agree (bs : List Nat) (h : ∀ b ∈ bs, b < 256) :
    decodeTransactionBytes (String.mk (hexEncode bs)) Encoding.hex = Except.ok bs ∧
    decodeTransactionBytes (String.mk (b64Encode bs)) Encoding.base64 = Except.ok bs ∧
    decodeTransactionBytes (String.mk (b58Encode bs)) Encoding.base58 = Except.ok bs := by
  refine ⟨?_, ?_, ?_⟩
  · show Except.ok (nodeHexDecode (hexEncode bs)) = Except.ok bs
    rw [nodeHexDecode_hexEncode bs h]
  · show Except.ok (nodeB64Decode (b64Encode bs)) = Except.ok bs
    rw [nodeB64Decode_b64Encode bs h]
  · simp only [decodeTransactionBytes]
    rw [b58Decode_b58Encode bs h]

theorem decodeTransaction_encodings_agree_witness :
    decodeTransactionBytes (String.mk (hexEncode [0, 1, 255])) Encoding.hex =
      Except.ok [0, 1, 255] ∧
    decodeTransactionBytes (String.mk (b64Encode [0, 1, 255])) Encoding.base64 =
      Except.ok [0, 1, 255] ∧
    decodeTransactionBytes (String.mk (b58Encode [0, 1, 255])) Encoding.base58 =
      Except.ok [0, 1, 255] :=
  decodeTransaction_encodings_agree [0, 1, 255] (by decide)

/-- C9 (counterexample): `"zz"` is malformed under the hex encoding (`z` is
not a hexadecimal digit), yet the decode step does not fail:
`Buffer.from('zz', 'hex')` silently yields an empty buffer, which proceeds
to transaction-format interpretation. -/
theorem decodeTransaction_malformed_counterexample :
    (∃ c ∈ "zz".data, hexVal c = none) ∧
    decodeTransactionBytes "zz" Encoding.hex = Except.ok [] := by
  refine ⟨⟨'z', by decide, by decide⟩, rfl⟩

/-- C9 (amended): only the base58 path can fail at the decode step — a
string containing any character outside the base58 alphabet makes
`bs58.decode` throw the decode error. The hex and base64 decodes are total
for every input string: malformed hex is silently truncated (possibly to an
empty buffer) and characters outside the base64 alphabet are skipped, the
resulting bytes proceeding to format interpretation rather than raising a
decode failure. -/
theorem decodeTransaction_malformed_amended (s : String) :
    (∃ bs, decodeTransactionBytes s Encoding.hex = Except.ok bs) ∧
    (∃ bs, decodeTransactionBytes s Encoding.base64 = Except.ok bs) ∧
    ((∃ c ∈ s.data, b58Val c = none) →
      decodeTransactionBytes s Encoding.base58 =
        Except.error DecodeError.nonBase58Character) := by
  refine ⟨⟨_, rfl⟩, ⟨_, rfl⟩, ?_⟩
  rintro ⟨c, hmem, hval⟩
  simp only [decodeTransactionBytes]
  rw [b58Decode]
  rw [b58Vals?_none hmem hval]

theorem decodeTransaction_malformed_amended_witness :
    decodeTransactionBytes "0" Encoding.base58 =
      Except.error DecodeError.nonBase58Character :=
  (decodeTransaction_malformed_amended "0").2.2 ⟨'0', by decide, by decide⟩

end CronBackend
